import Mathlib

/-!
Verification of the plugin-based HTTP API host (`src/index.js`).

The development shallowly embeds the parts of the source the claims are
about:

* the response-envelope middleware installed over `res.json`
  (`src/index.js` lines 26-40), modelled over a JSON-like value type;
* the recursive module discovery / validation / route binding loop
  `loadModules` (lines 47-85), modelled as a fold over a file tree that
  threads the mutable program state (`app` routes, `apiModules`,
  `totalRoutes`, console output);
* the `GET /api/info` catalog aggregation (lines 92-107), modelled as the
  insertion-ordered string-keyed dictionary the JS object literal is.
-/

namespace Ace

/-- JSON-like runtime values handed to `res.json`.  JavaScript objects are
modelled as insertion-ordered association lists with (by construction of a
JS object) unique keys; numbers are modelled as integers, which covers all
values the claims quantify over. -/
inductive JVal where
  | null
  | bool (b : Bool)
  | num (n : Int)
  | str (s : String)
  | arr (elems : List JVal)
  | obj (fields : List (String × JVal))

/-- JavaScript truthiness of a value (`data && ...`): `null`, `false`, `0`
and `""` are falsy; every array and every object is truthy. -/
def truthy : JVal → Bool
  | .null => false
  | .bool b => b
  | .num n => n != 0
  | .str s => s != ""
  | .arr _ => true
  | .obj _ => true

/-- First-match association-list lookup; JS objects have unique keys, so
this is exactly JS property lookup on the own properties. -/
def jsLookup : List (String × JVal) → String → Option JVal
  | [], _ => none
  | (k, v) :: rest, key => if k = key then some v else jsLookup rest key

/-- JS property access `v.key`: `none` models the `undefined` result
(missing key, or access on a non-object such as an array or a string with
no such own property). -/
def member : JVal → String → Option JVal
  | .obj fs, key => jsLookup fs key
  | _, _ => none

/-- JS `x || d`: the value itself when truthy, otherwise the default;
`none` (i.e. `undefined`) also falls back to the default. -/
def jsOrDefault (v : Option JVal) (d : JVal) : JVal :=
  match v with
  | some x => if truthy x then x else d
  | none => d

/-- `data.status || 200` from the envelope middleware. -/
def statusValue (data : JVal) : JVal :=
  jsOrDefault (member data "status") (.num 200)

/-- `settings.apiSettings?.creator || "Created Using Rynn UI"`: optional
chaining yields `undefined` when `apiSettings` is missing, and `||`
replaces any falsy result with the fixed default string. -/
def creatorValue (settings : JVal) : JVal :=
  jsOrDefault ((member settings "apiSettings").bind (fun a => member a "creator"))
    (.str "Created Using Rynn UI")

/-- Write one key of a JS object literal: an already-present key keeps its
position and gets the new value, a fresh key is appended at the end.  This
is exactly the JS object-literal / assignment rule for duplicate keys. -/
def setKey : List (String × JVal) → String → JVal → List (String × JVal)
  | [], key, v => [(key, v)]
  | (k, w) :: rest, key, v =>
      if k = key then (k, v) :: rest else (k, w) :: setKey rest key v

/-- Build a JS object literal from the listed key/value writes in order
(later writes to the same key win, as in `{a: 1, ...data}`). -/
def objLit (kvs : List (String × JVal)) : List (String × JVal) :=
  kvs.foldl (fun acc kv => setKey acc kv.1 kv.2) []

/-- The own properties contributed by a spread `...data`: an object
contributes its fields, an array contributes its elements under their
decimal index keys (`{...[10, 20]}` is `{"0": 10, "1": 20}`). -/
def spreadFields : JVal → List (String × JVal)
  | .obj fs => fs
  | .arr xs => xs.enum.map (fun iv => (toString iv.1, iv.2))
  | _ => []

/-- The middleware's guard `data && typeof data === 'object'`:
`typeof` is `'object'` for objects, arrays and `null`; `null` is falsy and
arrays/objects are always truthy, so the guard holds exactly on arrays and
objects. -/
def envelopeApplies : JVal → Bool
  | .arr _ => true
  | .obj _ => true
  | _ => false

/-- The patched `res.json` (src/index.js lines 26-40): for an array or an
object build `{status: data.status || 200, creator: settings.apiSettings?.creator
|| "Created Using Rynn UI", ...data}` and send it; send anything else
unchanged. -/
def resJson (settings data : JVal) : JVal :=
  if envelopeApplies data then
    .obj (objLit ([("status", statusValue data),
                   ("creator", creatorValue settings)] ++ spreadFields data))
  else data

/-- The metadata record `module.meta` of a plugin.  Fields the loader
reads (`name`, `description`, `category`, `author`, `path`, `method`) are
modelled as optional strings; `none` is the absent (`undefined`)
field. -/
structure Meta where
  name : Option String
  description : Option String
  category : Option String
  author : Option String
  path : Option String
  method : Option String
deriving DecidableEq

/-- The exported `module.onStart` value.  `notFunction` carries the JS
truthiness of the non-function value (both truthy and falsy non-functions
fail validation the same way); the behaviour of an invocable handler is
opaque to the loader, so `invocable` carries no data. -/
inductive EntryPoint where
  | absent
  | notFunction (truthyVal : Bool)
  | invocable
deriving DecidableEq

/-- A loaded plugin file's exports.  `meta = none` models a falsy/absent
`module.meta`. -/
structure JsModule where
  meta : Option Meta
  onStart : EntryPoint
deriving DecidableEq

/-- Outcome of `require(filePath)`: either the exports, or a thrown
load-time exception with its message. -/
inductive LoadResult where
  | ok (m : JsModule)
  | throws (msg : String)
deriving DecidableEq

/-- A node of the scanned directory tree: a subdirectory, or a file with
its basename and (for `.js` files) the result of loading it. -/
inductive FsEntry where
  | dir (dirName : String) (entries : List FsEntry)
  | file (fileName : String) (load : LoadResult)

/-- A dispatch entry registered on the router by `app[method](routePath, ...)`. -/
structure Route where
  method : String
  path : String
deriving DecidableEq

/-- One element pushed on `apiModules` (the catalog record of a bound
module). -/
structure CatalogEntry where
  name : Option String
  description : Option String
  category : Option String
  path : String
  author : Option String
  method : String
deriving DecidableEq

/-- The mutable program state threaded through `loadModules`: the routes
registered on `app`, the `apiModules` array, the `totalRoutes` counter and
the console output. -/
structure ScanState where
  routes : List Route
  apiModules : List CatalogEntry
  totalRoutes : Nat
  logs : List String
deriving DecidableEq

/-- The state before the scan starts. -/
def initState : ScanState := ⟨[], [], 0, []⟩

/-- `path.join(dir, file)` for the paths the scan builds. -/
def joinPath (a b : String) : String := a ++ "/" ++ b

/-- Characters of `name` after its last `'.'`, ignoring a dot in the very
first position (a leading dot marks a dotfile, not an extension). -/
def afterLastDot : List Char → Option (List Char)
  | [] => none
  | c :: cs =>
      match afterLastDot cs with
      | some s => some s
      | none => if c = '.' then some cs else none

/-- `path.extname(name)` on a basename: `".js"` for `"ping.js"`, `""` for
`"README"` or `".bashrc"`. -/
def extname (name : String) : String :=
  match name.data with
  | [] => ""
  | _ :: rest =>
      match afterLastDot rest with
      | some s => ⟨'.' :: s⟩
      | none => ""

/-- `true` on every character except the query separator `'?'`. -/
def isNotQ (c : Char) : Bool := c != '?'

/-- `p.split('?')[0]`: the part of the path before the first `'?'`. -/
def beforeQuery (p : String) : String := ⟨p.data.takeWhile isNotQ⟩

/-- The rest of the path from the first `'?'` on (empty when there is
none): `p = beforeQuery p ++ afterQuery p`. -/
def afterQuery (p : String) : String := ⟨p.data.dropWhile isNotQ⟩

/-- `p.includes('?')`. -/
def hasQuery (p : String) : Bool := p.data.contains '?'

/-- `p.split('?')[1]`: the segment strictly between the first and second
`'?'` (the whole remainder when there is only one `'?'`).  Only consulted
when `hasQuery p` is true. -/
def secondSegment (p : String) : String :=
  match p.data.dropWhile isNotQ with
  | [] => ""
  | _ :: rest => ⟨rest.takeWhile isNotQ⟩

/-- The `path` field pushed on `apiModules`:
`routePath + (meta.path.includes('?') ? '?' + meta.path.split('?')[1] : '')`. -/
def catalogPath (routePath metaPath : String) : String :=
  routePath ++ (if hasQuery metaPath then "?" ++ secondSegment metaPath else "")

/-- `module.meta.method || 'get'`: JS `||` falls back on any falsy value,
so both an absent method and the empty string default to `"get"`. -/
def methodDefault (m : Option String) : String :=
  match m with
  | some s => if s = "" then "get" else s
  | none => "get"

/-- `s.toLowerCase()` (character-wise lowering; identical to JS on the
ASCII method names involved). -/
def lowerString (s : String) : String := ⟨s.data.map Char.toLower⟩

/-- JS truthiness of the `module.meta` slot. -/
def metaTruthy (m : Option Meta) : Bool := m.isSome

/-- JS truthiness of the `module.onStart` slot. -/
def entryTruthy : EntryPoint → Bool
  | .absent => false
  | .notFunction t => t
  | .invocable => true

/-- `typeof module.onStart === 'function'`. -/
def entryIsFunction : EntryPoint → Bool
  | .invocable => true
  | _ => false

/-- The loader's validation test
`!module.meta || !module.onStart || typeof module.onStart !== 'function'`. -/
def invalidFormat (m : JsModule) : Bool :=
  !(metaTruthy m.meta) || !(entryTruthy m.onStart) || !(entryIsFunction m.onStart)

/-- The warning printed for a module that fails validation (chalk styling
omitted). -/
def skipWarning (filePath : String) : String :=
  "⚠️ Skipped " ++ filePath ++ " (Invalid module format)"

/-- The error printed when loading a file throws (chalk styling omitted). -/
def loadErrorMsg (filePath msg : String) : String :=
  "❌ Error loading " ++ filePath ++ ": " ++ msg

/-- Message of the TypeError thrown by `module.meta.path.split('?')` when
`meta.path` is absent; it is raised inside the `try`, so it lands in the
same catch as a load-time exception. -/
def pathSplitError : String := "Cannot read properties of undefined (reading 'split')"

/-- Body of the `try` block after validation succeeded: derive the route,
register the dispatch entry, push the catalog record, bump `totalRoutes`.
A missing `meta.path` throws before anything is registered and the
exception is caught by the surrounding catch. -/
def bindModule (s : ScanState) (filePath : String) (meta : Meta) : ScanState :=
  match meta.path with
  | none => { s with logs := s.logs ++ [loadErrorMsg filePath pathSplitError] }
  | some p =>
      let basePath := beforeQuery p
      let routePath := "/api" ++ basePath
      let method := lowerString (methodDefault meta.method)
      { s with
        routes := s.routes ++ [⟨method, routePath⟩],
        apiModules := s.apiModules ++
          [⟨meta.name, meta.description, meta.category,
            catalogPath routePath p, meta.author, methodDefault meta.method⟩],
        totalRoutes := s.totalRoutes + 1 }

/-- Processing of one candidate `.js` file: the `try { require; validate;
bind } catch { log }` block of `loadModules`. -/
def processJsFile (s : ScanState) (filePath : String) (load : LoadResult) : ScanState :=
  match load with
  | .throws msg => { s with logs := s.logs ++ [loadErrorMsg filePath msg] }
  | .ok m =>
      match m.meta with
      | none => { s with logs := s.logs ++ [skipWarning filePath] }
      | some meta =>
          if !(entryTruthy m.onStart) || !(entryIsFunction m.onStart) then
            { s with logs := s.logs ++ [skipWarning filePath] }
          else bindModule s filePath meta

mutual

/-- One step of `loadModules`' `forEach`: recurse into a subdirectory, or
process a file when its extension is `.js` (anything else is skipped
silently). -/
def processEntry (s : ScanState) (dir : String) : FsEntry → ScanState
  | .dir name sub => processList (joinPath dir name) s sub
  | .file name load =>
      if extname name = ".js" then processJsFile s (joinPath dir name) load else s

/-- `loadModules(dir)` over the listed directory entries, threading the
state left to right (directory-listing order). -/
def processList (dir : String) (s : ScanState) : List FsEntry → ScanState
  | [] => s
  | e :: rest => processList dir (processEntry s dir e) rest

end

/-- The whole startup scan `loadModules(apiFolder)` from the initial
state (the `api` directory name stands in for the absolute
`path.join(__dirname, 'api')`). -/
def loadModules (tree : List FsEntry) : ScanState := processList "api" initState tree

/-- A candidate file fails (producing a diagnostic instead of a route)
when loading throws, when validation rejects it, or when the bind-time
access `meta.path.split` throws. -/
def fileFails : LoadResult → Bool
  | .throws _ => true
  | .ok m =>
      match m.meta with
      | none => true
      | some meta =>
          !(entryTruthy m.onStart) || !(entryIsFunction m.onStart) || meta.path.isNone

mutual

/-- Number of candidate (`.js`) files in a tree node. -/
def candCount : FsEntry → Nat
  | .dir _ sub => candCountList sub
  | .file name _ => if extname name = ".js" then 1 else 0

/-- Number of candidate files in a list of tree nodes. -/
def candCountList : List FsEntry → Nat
  | [] => 0
  | e :: rest => candCount e + candCountList rest

end

mutual

/-- Number of candidate files that bind successfully. -/
def goodCount : FsEntry → Nat
  | .dir _ sub => goodCountList sub
  | .file name load =>
      if extname name = ".js" then (if fileFails load then 0 else 1) else 0

/-- Number of successfully binding candidates in a list of tree nodes. -/
def goodCountList : List FsEntry → Nat
  | [] => 0
  | e :: rest => goodCount e + goodCountList rest

end

mutual

/-- Number of candidate files that fail (invalid or throwing). -/
def badCount : FsEntry → Nat
  | .dir _ sub => badCountList sub
  | .file name load =>
      if extname name = ".js" then (if fileFails load then 1 else 0) else 0

/-- Number of failing candidates in a list of tree nodes. -/
def badCountList : List FsEntry → Nat
  | [] => 0
  | e :: rest => badCount e + badCountList rest

end

/-- One element of a category's `items` array in the `/api/info` payload. -/
structure CatItem where
  name : Option String
  desc : Option String
  path : String
  author : Option String
  method : String
deriving DecidableEq

/-- One value of the `categories` object: `{ name: module.category, items: [...] }`;
`name` is `none` when the creating module had no category. -/
structure CatCategory where
  name : Option String
  items : List CatItem
deriving DecidableEq

/-- The item pushed for a module:
`{name, desc: description, path, author, method}`. -/
def toItem (m : CatalogEntry) : CatItem :=
  ⟨m.name, m.description, m.path, m.author, m.method⟩

/-- The property key used by `categories[module.category]`: JS stringifies
the key, so an unset category indexes the slot named `"undefined"`. -/
def categoryKey : Option String → String
  | some s => s
  | none => "undefined"

/-- One `forEach` step of the `/api/info` handler on the `categories`
dictionary: create the slot `{name: module.category, items: []}` if the
key is absent, then push the item.  JS object keys are unique and keep
insertion order, so the dictionary is an association list updated in place
with fresh keys appended at the end. -/
def insertItem (k : String) (nameVal : Option String) (it : CatItem) :
    List (String × CatCategory) → List (String × CatCategory)
  | [] => [(k, ⟨nameVal, [it]⟩)]
  | (k0, c0) :: rest =>
      if k0 = k then (k0, ⟨c0.name, c0.items ++ [it]⟩) :: rest
      else (k0, c0) :: insertItem k nameVal it rest

/-- The `categories` dictionary built by the `/api/info` handler from
`apiModules`. -/
def buildCatalog (mods : List CatalogEntry) : List (String × CatCategory) :=
  mods.foldl (fun cats m => insertItem (categoryKey m.category) m.category (toItem m) cats) []

/-- Lookup of a category slot by key. -/
def findCat : List (String × CatCategory) → String → Option CatCategory
  | [], _ => none
  | (k, cat) :: rest, c => if k = c then some cat else findCat rest c

/-- The items recorded under a key (empty when the slot does not exist). -/
def itemsAt (cats : List (String × CatCategory)) (c : String) : List CatItem :=
  ((findCat cats c).map CatCategory.items).getD []

/-- `Object.values(categories)`: the category records in insertion
order — the list the `/api/info` response carries. -/
def apiInfoCategories (mods : List CatalogEntry) : List CatCategory :=
  (buildCatalog mods).map Prod.snd

/-- Every `path` appearing across the categories of the `/api/info`
response. -/
def infoPaths (mods : List CatalogEntry) : List String :=
  ((apiInfoCategories mods).map (fun c => c.items.map CatItem.path)).flatten

/-- All items across all category slots. -/
def allItems (cats : List (String × CatCategory)) : List CatItem :=
  (cats.map (fun kc => kc.2.items)).flatten

/-- What one scan step does to the state: it appends `g` routes and `g`
catalog entries whose query-stripped paths are exactly the new routes'
paths, appends `b` diagnostics, and advances `totalRoutes` by the number
of new routes.  Nothing already in the state is touched. -/
def scanDelta (s s2 : ScanState) (g b : Nat) : Prop :=
  ∃ nr nm nl,
    s2 = ⟨s.routes ++ nr, s.apiModules ++ nm, s.totalRoutes + nr.length, s.logs ++ nl⟩
    ∧ nr.length = g ∧ nm.length = g ∧ nl.length = b
    ∧ nm.map (fun ce => beforeQuery ce.path) = nr.map Route.path

/-- Concrete fixture: a well-formed module bound at `get /api/ping`. -/
def pingModule : JsModule :=
  ⟨some ⟨some "Ping", some "ping desc", some "util", none, some "/ping", none⟩, .invocable⟩

/-- Concrete fixture: a second well-formed module claiming the same
`get /api/ping` key as `pingModule`. -/
def pingModule2 : JsModule :=
  ⟨some ⟨some "Ping2", some "other", some "util", none, some "/ping", none⟩, .invocable⟩

/-- Concrete fixture: a module whose path carries a query template. -/
def searchModule : JsModule :=
  ⟨some ⟨some "Search", none, some "util", none, some "/search?q=test", none⟩, .invocable⟩

/-- Concrete fixture: a module whose `method` is present but the empty
string (a falsy, non-absent method). -/
def emptyMethodModule : JsModule :=
  ⟨some ⟨some "Ping", none, some "util", none, some "/ping", some ""⟩, .invocable⟩

/-- Concrete fixture: a module with no `meta` record (fails validation). -/
def brokenModule : JsModule := ⟨none, .invocable⟩

/-- Concrete fixture directory: three candidate `.js` files of which one
binds, one is invalid, one throws — plus a non-candidate `.md` file. -/
def sampleTree : List FsEntry :=
  [.file "good.js" (.ok pingModule),
   .file "bad.js" (.ok brokenModule),
   .file "boom.js" (.throws "oops"),
   .file "notes.md" (.throws "never loaded")]

/-- Concrete fixture: a catalog record with no category. -/
def noCatEntry : CatalogEntry := ⟨some "X", none, none, "/api/x", none, "get"⟩

/-- Concrete fixture: first catalog record in category `util`. -/
def utilEntryA : CatalogEntry := ⟨some "A", none, some "util", "/api/a", none, "get"⟩

/-- Concrete fixture: second catalog record in category `util`. -/
def utilEntryB : CatalogEntry := ⟨some "B", none, some "util", "/api/b", none, "post"⟩

/-- Concrete fixture: a record whose category is the literal string
`"undefined"`. -/
def undefEntry1 : CatalogEntry := ⟨some "U1", none, some "undefined", "/api/u1", none, "get"⟩

/-- Concrete fixture: another record with category `"undefined"`. -/
def undefEntry2 : CatalogEntry := ⟨some "U2", none, some "undefined", "/api/u2", none, "get"⟩

theorem jsLookup_setKey_self (fs : List (String × JVal)) (k : String) (v : JVal) :
    jsLookup (setKey fs k v) k = some v := by
  induction fs with
  | nil => simp [setKey, jsLookup]
  | cons kv rest ih =>
      obtain ⟨k0, v0⟩ := kv
      by_cases h : k0 = k
      · subst h; simp [setKey, jsLookup]
      · simp [setKey, jsLookup, h, ih]

theorem jsLookup_setKey_ne (fs : List (String × JVal)) (k k' : String) (v : JVal)
    (h : k' ≠ k) : jsLookup (setKey fs k v) k' = jsLookup fs k' := by
  induction fs with
  | nil =>
      simp only [setKey, jsLookup]
      rw [if_neg (fun hh => h hh.symm)]
  | cons kv rest ih =>
      obtain ⟨k0, v0⟩ := kv
      by_cases h0 : k0 = k
      · subst h0
        simp only [setKey, if_pos rfl, jsLookup]
        rw [if_neg (fun hh => h hh.symm), if_neg (fun hh => h hh.symm)]
      · simp only [setKey, if_neg h0, jsLookup]
        by_cases h1 : k0 = k'
        · rw [if_pos h1, if_pos h1]
        · rw [if_neg h1, if_neg h1]
          exact ih

theorem jsLookup_eq_none_of_not_mem (fs : List (String × JVal)) (k : String)
    (h : k ∉ fs.map Prod.fst) : jsLookup fs k = none := by
  induction fs with
  | nil => simp [jsLookup]
  | cons kv rest ih =>
      obtain ⟨k0, v0⟩ := kv
      simp only [List.map_cons, List.mem_cons] at h
      push_neg at h
      simp only [jsLookup]
      rw [if_neg (fun hh => h.1 hh.symm)]
      exact ih h.2

/-- Folding the writes of a spread over an initial object: with unique
keys in the spread, a key found in the spread has the spread's value, and
any other key keeps the initial object's value. -/
theorem jsLookup_foldl_setKey (fs : List (String × JVal)) :
    ∀ (init : List (String × JVal)) (k : String), (fs.map Prod.fst).Nodup →
    jsLookup (fs.foldl (fun acc kv => setKey acc kv.1 kv.2) init) k =
      match jsLookup fs k with
      | some v => some v
      | none => jsLookup init k := by
  induction fs with
  | nil => intro init k _; simp [jsLookup]
  | cons kv rest ih =>
      intro init k hnd
      obtain ⟨k0, v0⟩ := kv
      simp only [List.map_cons, List.nodup_cons] at hnd
      obtain ⟨hk0, hrest⟩ := hnd
      rw [List.foldl_cons, ih (setKey init k0 v0) k hrest]
      by_cases h : k0 = k
      · subst h
        rw [jsLookup_eq_none_of_not_mem rest k0 hk0]
        simp [jsLookup, jsLookup_setKey_self]
      · have h2 : jsLookup (setKey init k0 v0) k = jsLookup init k :=
          jsLookup_setKey_ne init k0 k v0 (fun hh => h hh.symm)
        simp only [jsLookup, if_neg h, h2]

theorem findCat_insertItem (cats : List (String × CatCategory))
    (k : String) (nameVal : Option String) (it : CatItem) (c : String) :
    findCat (insertItem k nameVal it cats) c =
      if k = c then
        match findCat cats c with
        | some cat => some ⟨cat.name, cat.items ++ [it]⟩
        | none => some ⟨nameVal, [it]⟩
      else findCat cats c := by
  induction cats with
  | nil =>
      by_cases h : k = c <;> simp [insertItem, findCat, h]
  | cons kc rest ih =>
      obtain ⟨k0, c0⟩ := kc
      by_cases h0 : k0 = k
      · subst h0
        simp only [insertItem, if_pos rfl, findCat]
        by_cases h : k0 = c
        · subst h; simp [findCat]
        · simp [findCat, h]
      · simp only [insertItem, if_neg h0, findCat]
        by_cases h : k0 = c
        · subst h
          rw [if_neg (fun hh : k = k0 => h0 hh.symm)]
          simp [findCat]
        · simp [h, ih]

theorem keysOf_insertItem (cats : List (String × CatCategory))
    (k : String) (nameVal : Option String) (it : CatItem) :
    (insertItem k nameVal it cats).map Prod.fst =
      if (findCat cats k).isSome then cats.map Prod.fst
      else cats.map Prod.fst ++ [k] := by
  induction cats with
  | nil => simp [insertItem, findCat]
  | cons kc rest ih =>
      obtain ⟨k0, c0⟩ := kc
      by_cases h0 : k0 = k
      · subst h0
        simp [insertItem, findCat]
      · simp [insertItem, findCat, h0, ih]
        by_cases h : (findCat rest k).isSome <;> simp [h]

theorem findCat_isSome_iff (cats : List (String × CatCategory)) (k : String) :
    (findCat cats k).isSome = true ↔ k ∈ cats.map Prod.fst := by
  induction cats with
  | nil => simp [findCat]
  | cons kc rest ih =>
      obtain ⟨k0, c0⟩ := kc
      by_cases h : k0 = k
      · subst h; simp [findCat]
      · simp only [findCat, if_neg h, List.map_cons, List.mem_cons]
        rw [ih]
        constructor
        · exact fun hm => Or.inr hm
        · rintro (hh | hm)
          · exact absurd hh.symm h
          · exact hm

theorem itemsAt_insertItem (cats : List (String × CatCategory))
    (k : String) (nameVal : Option String) (it : CatItem) (c : String) :
    itemsAt (insertItem k nameVal it cats) c =
      itemsAt cats c ++ (if k = c then [it] else []) := by
  simp only [itemsAt, findCat_insertItem]
  by_cases h : k = c
  · rw [if_pos h, if_pos h]
    cases hf : findCat cats c <;> simp [hf]
  · rw [if_neg h, if_neg h]
    simp

theorem itemsAt_buildFold (mods : List CatalogEntry) :
    ∀ (cats : List (String × CatCategory)) (c : String),
    itemsAt (mods.foldl
        (fun cats m => insertItem (categoryKey m.category) m.category (toItem m) cats) cats) c =
      itemsAt cats c ++ (mods.filter (fun m => categoryKey m.category == c)).map toItem := by
  induction mods with
  | nil => intro cats c; simp
  | cons m rest ih =>
      intro cats c
      rw [List.foldl_cons, ih, itemsAt_insertItem]
      by_cases h : categoryKey m.category = c
      · simp [h, List.filter_cons]
      · simp [h, List.filter_cons]

theorem keys_nodup_buildFold (mods : List CatalogEntry) :
    ∀ (cats : List (String × CatCategory)), (cats.map Prod.fst).Nodup →
    ((mods.foldl
        (fun cats m => insertItem (categoryKey m.category) m.category (toItem m) cats) cats).map
      Prod.fst).Nodup := by
  induction mods with
  | nil => intro cats h; simpa using h
  | cons m rest ih =>
      intro cats h
      rw [List.foldl_cons]
      refine ih _ ?_
      rw [keysOf_insertItem]
      by_cases hf : (findCat cats (categoryKey m.category)).isSome
      · simpa [hf] using h
      · have hnm : categoryKey m.category ∉ cats.map Prod.fst := by
          intro hmem
          rw [← findCat_isSome_iff] at hmem
          exact hf hmem
        simp [hf, List.nodup_append, h, hnm]

theorem categoryKey_eq_of_ne (o : Option String) (c : String)
    (hc : c ≠ "undefined") (h : categoryKey o = c) : o = some c := by
  cases o with
  | none => exact absurd h.symm hc
  | some s => simpa [categoryKey] using congrArg some h

theorem nameAt_buildFold (c : String) (hc : c ≠ "undefined") (mods : List CatalogEntry) :
    ∀ (cats : List (String × CatCategory)),
    (∀ cat, findCat cats c = some cat → cat.name = some c) →
    ∀ cat, findCat (mods.foldl
        (fun cats m => insertItem (categoryKey m.category) m.category (toItem m) cats) cats) c =
      some cat → cat.name = some c := by
  induction mods with
  | nil => intro cats h; simpa using h
  | cons m rest ih =>
      intro cats h
      rw [List.foldl_cons]
      refine ih _ ?_
      intro cat hcat
      rw [findCat_insertItem] at hcat
      by_cases hk : categoryKey m.category = c
      · rw [if_pos hk] at hcat
        cases hf : findCat cats c with
        | some cat0 =>
            rw [hf] at hcat
            have := h cat0 hf
            cases hcat
            simpa using this
        | none =>
            rw [hf] at hcat
            cases hcat
            simpa using categoryKey_eq_of_ne m.category c hc hk
      · rw [if_neg hk] at hcat
        exact h cat hcat

theorem allItems_nil : allItems [] = [] := rfl

theorem allItems_cons (k : String) (c : CatCategory) (rest : List (String × CatCategory)) :
    allItems ((k, c) :: rest) = c.items ++ allItems rest := by
  simp [allItems]

theorem allItems_insertItem (cats : List (String × CatCategory))
    (k : String) (nameVal : Option String) (it : CatItem) :
    List.Perm (allItems (insertItem k nameVal it cats)) (allItems cats ++ [it]) := by
  induction cats with
  | nil => simp [insertItem, allItems]
  | cons kc rest ih =>
      obtain ⟨k0, c0⟩ := kc
      by_cases h : k0 = k
      · subst h
        rw [show insertItem k0 nameVal it ((k0, c0) :: rest)
              = (k0, ⟨c0.name, c0.items ++ [it]⟩) :: rest from by simp [insertItem]]
        rw [allItems_cons, allItems_cons, List.append_assoc, List.append_assoc]
        exact List.Perm.append_left c0.items List.perm_append_comm
      · rw [show insertItem k nameVal it ((k0, c0) :: rest)
              = (k0, c0) :: insertItem k nameVal it rest from by simp [insertItem, h]]
        rw [allItems_cons, allItems_cons, List.append_assoc]
        exact List.Perm.append_left c0.items ih

theorem allItems_buildFold (mods : List CatalogEntry) :
    ∀ (cats : List (String × CatCategory)),
    List.Perm (allItems (mods.foldl
        (fun cats m => insertItem (categoryKey m.category) m.category (toItem m) cats) cats))
      (allItems cats ++ mods.map toItem) := by
  induction mods with
  | nil => intro cats; simp
  | cons m rest ih =>
      intro cats
      rw [List.foldl_cons]
      refine (ih _).trans ?_
      rw [List.map_cons]
      have h1 := List.Perm.append_right (rest.map toItem)
        (allItems_insertItem cats (categoryKey m.category) m.category (toItem m))
      refine h1.trans ?_
      rw [List.append_assoc]
      exact List.Perm.refl _

theorem allItems_buildCatalog (mods : List CatalogEntry) :
    List.Perm (allItems (buildCatalog mods)) (mods.map toItem) := by
  simpa [allItems_nil] using allItems_buildFold mods []

theorem infoPaths_eq_allItems (mods : List CatalogEntry) :
    infoPaths mods = (allItems (buildCatalog mods)).map CatItem.path := by
  unfold infoPaths allItems apiInfoCategories
  rw [List.map_flatten, List.map_map, List.map_map]
  rfl

theorem infoPaths_perm (mods : List CatalogEntry) :
    List.Perm (infoPaths mods) (mods.map CatalogEntry.path) := by
  rw [infoPaths_eq_allItems]
  have h := (allItems_buildCatalog mods).map CatItem.path
  refine h.trans ?_
  rw [List.map_map]
  exact List.Perm.refl _

theorem stringExt (a b : String) (h : a.data = b.data) : a = b :=
  congrArg String.mk h

theorem stringDataAppend (a b : String) : (a ++ b).data = a.data ++ b.data := rfl

theorem takeWhile_append_of_all (p : Char → Bool) :
    ∀ (a b : List Char), a.all p = true → (a ++ b).takeWhile p = a ++ b.takeWhile p := by
  intro a
  induction a with
  | nil => intro b _; simp
  | cons c cs ih =>
      intro b h
      simp only [List.all_cons, Bool.and_eq_true] at h
      simp [List.takeWhile_cons, h.1, ih b h.2]

theorem all_takeWhile_self (p : Char → Bool) (l : List Char) :
    (l.takeWhile p).all p = true := by
  induction l with
  | nil => simp
  | cons c cs ih =>
      by_cases h : p c = true
      · simp [List.takeWhile_cons, h, ih]
      · simp [List.takeWhile_cons, h]

theorem takeWhile_eq_self_of_all (p : Char → Bool) :
    ∀ (l : List Char), l.all p = true → l.takeWhile p = l := by
  intro l
  induction l with
  | nil => intro _; simp
  | cons c cs ih =>
      intro h
      simp only [List.all_cons, Bool.and_eq_true] at h
      simp [List.takeWhile_cons, h.1, ih h.2]

theorem beforeQuery_append_noQ (a b : String)
    (h : a.data.all isNotQ = true) : beforeQuery (a ++ b) = a ++ beforeQuery b := by
  apply stringExt
  show (a.data ++ b.data).takeWhile isNotQ = a.data ++ b.data.takeWhile isNotQ
  exact takeWhile_append_of_all isNotQ a.data b.data h

theorem beforeQuery_data_all (p : String) : (beforeQuery p).data.all isNotQ = true :=
  all_takeWhile_self isNotQ p.data

/-- Splitting the registered route path off a displayed catalog path
recovers the route path: the route path contains no `'?'` and the
reattached suffix is empty or starts with `'?'`. -/
theorem beforeQuery_catalogPath (p : String) :
    beforeQuery (catalogPath ("/api" ++ beforeQuery p) p) = "/api" ++ beforeQuery p := by
  have hall : (("/api" : String) ++ beforeQuery p).data.all isNotQ = true := by
    rw [stringDataAppend, List.all_append]
    rw [beforeQuery_data_all]
    simp [isNotQ]
  unfold catalogPath
  by_cases hq : hasQuery p
  · rw [if_pos hq]
    apply stringExt
    show ((("/api" ++ beforeQuery p) ++ ("?" ++ secondSegment p)).data.takeWhile isNotQ)
        = ("/api" ++ beforeQuery p).data
    rw [stringDataAppend, takeWhile_append_of_all isNotQ _ _ hall]
    show _ ++ (('?' :: (secondSegment p).data).takeWhile isNotQ) = _
    rw [show ('?' :: (secondSegment p).data).takeWhile isNotQ = [] from by
      simp [List.takeWhile_cons, isNotQ]]
    simp
  · rw [if_neg hq]
    apply stringExt
    show ((("/api" ++ beforeQuery p) ++ "").data.takeWhile isNotQ)
        = ("/api" ++ beforeQuery p).data
    rw [stringDataAppend]
    show ((("/api" ++ beforeQuery p)).data ++ []).takeWhile isNotQ = _
    rw [List.append_nil]
    exact takeWhile_eq_self_of_all isNotQ _ hall

/-- `meta.path` recombines from its two halves around the first `'?'`. -/
theorem beforeQuery_append_afterQuery (p : String) :
    beforeQuery p ++ afterQuery p = p := by
  apply stringExt
  show p.data.takeWhile isNotQ ++ p.data.dropWhile isNotQ = p.data
  exact List.takeWhile_append_dropWhile isNotQ p.data

/-- The dropped suffix is empty (no `'?'` in the path) or begins with the
first `'?'`. -/
theorem afterQuery_empty_or_qmark (p : String) :
    afterQuery p = "" ∨ ∃ t : List Char, (afterQuery p).data = '?' :: t := by
  have : ∀ l : List Char, l.dropWhile isNotQ = [] ∨
      ∃ t, l.dropWhile isNotQ = '?' :: t := by
    intro l
    induction l with
    | nil => exact Or.inl rfl
    | cons c cs ih =>
        by_cases h : isNotQ c = true
        · simpa [List.dropWhile_cons, h] using ih
        · have hc : c = '?' := by simpa [isNotQ] using h
          subst hc
          refine Or.inr ⟨cs, ?_⟩
          simp [List.dropWhile_cons, isNotQ]
  rcases this p.data with h | ⟨t, ht⟩
  · exact Or.inl (stringExt _ _ (by simpa [afterQuery] using h))
  · exact Or.inr ⟨t, by simpa [afterQuery] using ht⟩

mutual

theorem processEntry_delta : ∀ (e : FsEntry) (s : ScanState) (dir : String),
    scanDelta s (processEntry s dir e) (goodCount e) (badCount e)
  | .dir name sub, s, dir => by
      have h := processList_delta sub (joinPath dir name) s
      simpa only [processEntry, goodCount, badCount] using h
  | .file name load, s, dir => by
      simp only [processEntry, goodCount, badCount]
      by_cases hjs : extname name = ".js"
      · rw [if_pos hjs, if_pos hjs, if_pos hjs]
        cases load with
        | throws msg =>
            have hfail : fileFails (.throws msg) = true := rfl
            unfold scanDelta
            refine ⟨[], [], [loadErrorMsg (joinPath dir name) msg], ?_, rfl, rfl, ?_, rfl⟩
            · simp [processJsFile]
            · simp [hfail]
        | ok m =>
            cases hm : m.meta with
            | none =>
                have hfail : fileFails (.ok m) = true := by simp [fileFails, hm]
                unfold scanDelta
                refine ⟨[], [], [skipWarning (joinPath dir name)], ?_, ?_, ?_, ?_, rfl⟩
                · simp [processJsFile, hm]
                · simp [hfail]
                · simp [hfail]
                · simp [hfail]
            | some meta =>
                by_cases hent : (!(entryTruthy m.onStart) || !(entryIsFunction m.onStart)) = true
                · have hfail : fileFails (.ok m) = true := by
                    simp only [fileFails, hm]
                    rcases Bool.or_eq_true_iff.mp hent with h' | h' <;> simp [h']
                  unfold scanDelta
                  refine ⟨[], [], [skipWarning (joinPath dir name)], ?_, ?_, ?_, ?_, rfl⟩
                  · simp [processJsFile, hm, hent]
                  · simp [hfail]
                  · simp [hfail]
                  · simp [hfail]
                · have hent' : (!(entryTruthy m.onStart) || !(entryIsFunction m.onStart)) = false := by
                    revert hent
                    cases (!(entryTruthy m.onStart) || !(entryIsFunction m.onStart)) <;> simp
                  cases hp : meta.path with
                  | none =>
                      have hfail : fileFails (.ok m) = true := by
                        simp [fileFails, hm, hp]
                      unfold scanDelta
                      refine ⟨[], [], [loadErrorMsg (joinPath dir name) pathSplitError],
                        ?_, ?_, ?_, ?_, rfl⟩
                      · simp [processJsFile, hm, hent', bindModule, hp]
                      · simp [hfail]
                      · simp [hfail]
                      · simp [hfail]
                  | some p =>
                      have hfail : fileFails (.ok m) = false := by
                        simp only [Bool.or_eq_false_iff] at hent'
                        simp [fileFails, hm, hp, hent'.1, hent'.2]
                      unfold scanDelta
                      refine ⟨[⟨lowerString (methodDefault meta.method), "/api" ++ beforeQuery p⟩],
                        [⟨meta.name, meta.description, meta.category,
                          catalogPath ("/api" ++ beforeQuery p) p, meta.author,
                          methodDefault meta.method⟩],
                        [], ?_, ?_, ?_, ?_, ?_⟩
                      · simp [processJsFile, hm, hent', bindModule, hp]
                      · simp [hfail]
                      · simp [hfail]
                      · simp [hfail]
                      · simp [beforeQuery_catalogPath]
      · rw [if_neg hjs, if_neg hjs, if_neg hjs]
        unfold scanDelta
        exact ⟨[], [], [], by simp, rfl, rfl, rfl, rfl⟩

theorem processList_delta : ∀ (l : List FsEntry) (dir : String) (s : ScanState),
    scanDelta s (processList dir s l) (goodCountList l) (badCountList l)
  | [], dir, s => by
      unfold scanDelta
      exact ⟨[], [], [], by simp [processList], rfl, rfl, rfl, rfl⟩
  | e :: rest, dir, s => by
      obtain ⟨nr1, nm1, nl1, h1, hg1, hm1, hb1, hp1⟩ := processEntry_delta e s dir
      obtain ⟨nr2, nm2, nl2, h2, hg2, hm2, hb2, hp2⟩ :=
        processList_delta rest dir (processEntry s dir e)
      unfold scanDelta
      refine ⟨nr1 ++ nr2, nm1 ++ nm2, nl1 ++ nl2, ?_, ?_, ?_, ?_, ?_⟩
      · show processList dir (processEntry s dir e) rest = _
        rw [h2, h1]
        simp [List.append_assoc, List.length_append, Nat.add_assoc]
      · simp [goodCountList, List.length_append, hg1, hg2]
      · simp [goodCountList, List.length_append, hm1, hm2]
      · simp [badCountList, List.length_append, hb1, hb2]
      · simp [List.map_append, hp1, hp2]

end

mutual

theorem good_add_bad : ∀ (e : FsEntry), goodCount e + badCount e = candCount e
  | .dir name sub => by
      simpa only [goodCount, badCount, candCount] using good_add_bad_list sub
  | .file name load => by
      simp only [goodCount, badCount, candCount]
      by_cases hjs : extname name = ".js"
      · rw [if_pos hjs, if_pos hjs, if_pos hjs]
        cases hf : fileFails load <;> simp
      · rw [if_neg hjs, if_neg hjs, if_neg hjs]

theorem good_add_bad_list : ∀ (l : List FsEntry),
    goodCountList l + badCountList l = candCountList l
  | [] => rfl
  | e :: rest => by
      have h1 := good_add_bad e
      have h2 := good_add_bad_list rest
      simp only [goodCountList, badCountList, candCountList]
      omega

end

/-- Claim C1 — counterexample: a bare array is not sent byte-identical to
the handler's payload.  `typeof array === 'object'` holds in JS, so the
envelope guard accepts arrays: the array is spread into the envelope
object under its index keys and `status`/`creator` are injected. -/
theorem envelope_array_not_passthrough :
    resJson JVal.null (JVal.arr [JVal.num 1, JVal.num 2])
      = JVal.obj [("status", JVal.num 200), ("creator", JVal.str "Created Using Rynn UI"),
          ("0", JVal.num 1), ("1", JVal.num 2)]
    ∧ resJson JVal.null (JVal.arr [JVal.num 1, JVal.num 2])
        ≠ JVal.arr [JVal.num 1, JVal.num 2] :=
  ⟨rfl, fun h => JVal.noConfusion h⟩

/-- Claim C1 (amended): every payload on which the middleware guard
`data && typeof data === 'object'` is false — `null` and the scalars
(strings, numbers, booleans) — is sent unmodified, with no `status` or
`creator` injected; a bare array, however, counts as an object to `typeof`
and is wrapped instead of passed through. -/
theorem envelope_nonobject_passthrough (settings data : JVal)
    (h : envelopeApplies data = false) : resJson settings data = data := by
  simp [resJson, h]

/-- Claim C1 — witness: a scalar string payload passes through
unmodified. -/
theorem envelope_nonobject_passthrough_witness :
    envelopeApplies (JVal.str "pong") = false
    ∧ resJson JVal.null (JVal.str "pong") = JVal.str "pong" :=
  ⟨rfl, envelope_nonobject_passthrough JVal.null (JVal.str "pong") rfl⟩

/-- Claim C2: for an object payload `P` the wire value is
`merge(defaults, P)` with `defaults = {status: 200, creator: configured}`:
every key of `P` keeps `P`'s value (in particular `status`), a missing
`status` becomes `200`, a missing `creator` becomes the configured creator
string, and no key outside `P`, `status` and `creator` appears. -/
theorem envelope_object_merge (settings : JVal) (fs : List (String × JVal))
    (hnd : (fs.map Prod.fst).Nodup) :
    ∃ rs, resJson settings (JVal.obj fs) = JVal.obj rs
      ∧ (∀ k v, jsLookup fs k = some v → jsLookup rs k = some v)
      ∧ (jsLookup fs "status" = none → jsLookup rs "status" = some (JVal.num 200))
      ∧ (jsLookup fs "creator" = none → jsLookup rs "creator" = some (creatorValue settings))
      ∧ (∀ k, k ≠ "status" → k ≠ "creator" → jsLookup fs k = none → jsLookup rs k = none) := by
  refine ⟨objLit ([("status", statusValue (JVal.obj fs)),
      ("creator", creatorValue settings)] ++ fs), ?_, ?_, ?_, ?_, ?_⟩
  · simp [resJson, envelopeApplies, spreadFields]
  all_goals {
    have hrs : ∀ k, jsLookup (objLit ([("status", statusValue (JVal.obj fs)),
        ("creator", creatorValue settings)] ++ fs)) k =
        match jsLookup fs k with
        | some v => some v
        | none => jsLookup [("status", statusValue (JVal.obj fs)),
            ("creator", creatorValue settings)] k := by
      intro k
      rw [objLit, List.foldl_append]
      exact jsLookup_foldl_setKey fs _ k hnd
    first
    | exact fun k v hv => by rw [hrs k, hv]
    | exact fun h0 => by
        rw [hrs "status", h0]
        simp [jsLookup, statusValue, member, h0, jsOrDefault]
    | exact fun h0 => by
        rw [hrs "creator", h0]
        simp [jsLookup, creatorValue]
    | exact fun k hk1 hk2 h0 => by
        rw [hrs k, h0]
        simp only [jsLookup]
        rw [if_neg (fun hh => hk1 hh.symm), if_neg (fun hh => hk2 hh.symm)]
  }

/-- Claim C2 — witness: a payload with its own `status: 201` keeps it on
the wire. -/
theorem envelope_object_merge_witness :
    (([("status", JVal.num 201), ("x", JVal.num 1)].map
        (Prod.fst (β := JVal))).Nodup)
    ∧ ∃ rs, resJson JVal.null (JVal.obj [("status", JVal.num 201), ("x", JVal.num 1)])
        = JVal.obj rs ∧ jsLookup rs "status" = some (JVal.num 201) := by
  refine ⟨by decide, ?_⟩
  obtain ⟨rs, h1, h2, _, _, _⟩ := envelope_object_merge JVal.null
    [("status", JVal.num 201), ("x", JVal.num 1)] (by decide)
  exact ⟨rs, h1, h2 "status" (JVal.num 201) rfl⟩

/-- Claim C3: a candidate unit is rejected by the validation check exactly
when its metadata is absent, its entry point is absent, or its entry point
is not invocable; such a unit only appends a warning naming its file path
— no route, no catalog entry, no counter change — and the scan of the
remaining entries proceeds from that state. -/
theorem invalid_module_skipped (m : JsModule) (s : ScanState) (dir name : String)
    (hjs : extname name = ".js") :
    (invalidFormat m = true ↔
      (m.meta = none ∨ m.onStart = EntryPoint.absent ∨ entryIsFunction m.onStart = false))
    ∧ (invalidFormat m = true →
        processEntry s dir (.file name (.ok m))
          = { s with logs := s.logs ++ [skipWarning (joinPath dir name)] }
        ∧ ∀ rest, processList dir s (.file name (.ok m) :: rest)
            = processList dir { s with logs := s.logs ++ [skipWarning (joinPath dir name)] }
                rest) := by
  constructor
  · obtain ⟨mm, mo⟩ := m
    cases mm <;> cases mo <;>
      simp [invalidFormat, metaTruthy, entryTruthy, entryIsFunction]
  · intro hinv
    have heq : processEntry s dir (.file name (.ok m))
        = { s with logs := s.logs ++ [skipWarning (joinPath dir name)] } := by
      cases hm : m.meta with
      | none => simp [processEntry, hjs, processJsFile, hm]
      | some meta =>
          have hent : (!(entryTruthy m.onStart) || !(entryIsFunction m.onStart)) = true := by
            simpa [invalidFormat, metaTruthy, hm] using hinv
          simp [processEntry, hjs, processJsFile, hm, hent]
    exact ⟨heq, fun rest => by
      show processList dir (processEntry s dir (.file name (.ok m))) rest = _
      rw [heq]⟩

/-- Claim C3 — witness: a module exporting a handler but no `meta` is
skipped with the warning naming `api/broken.js`, and nothing else
changes. -/
theorem invalid_module_skipped_witness :
    extname "broken.js" = ".js" ∧ invalidFormat brokenModule = true
    ∧ processEntry initState "api" (.file "broken.js" (.ok brokenModule))
        = { initState with
            logs := initState.logs ++ [skipWarning (joinPath "api" "broken.js")] } := by
  have h := invalid_module_skipped brokenModule initState "api" "broken.js" rfl
  exact ⟨rfl, rfl, (h.2 rfl).1⟩

/-- Claim C4: over any candidate set with `N` candidates of which `k`
fail (invalid format or a throw while loading), the scan binds exactly
`N - k` routes (and catalog entries and counter ticks) and logs exactly
`k` diagnostics; a file whose load throws only appends one error naming
its path and message, leaving everything else intact, so no failure
aborts the scan or affects other modules. -/
theorem discovery_isolation (tree : List FsEntry) (N k : Nat)
    (hN : candCountList tree = N) (hk : badCountList tree = k) :
    (loadModules tree).routes.length = N - k
    ∧ (loadModules tree).totalRoutes = N - k
    ∧ (loadModules tree).apiModules.length = N - k
    ∧ (loadModules tree).logs.length = k
    ∧ k ≤ N
    ∧ ∀ (s : ScanState) (dir name msg : String), extname name = ".js" →
        processEntry s dir (.file name (.throws msg))
          = { s with logs := s.logs ++ [loadErrorMsg (joinPath dir name) msg] } := by
  obtain ⟨nr, nm, nl, heq, hg, hm, hb, hp⟩ := processList_delta tree "api" initState
  have hgb := good_add_bad_list tree
  have hroutes : (loadModules tree).routes.length = goodCountList tree := by
    simp only [loadModules]
    rw [heq]
    simpa [initState] using hg
  have htot : (loadModules tree).totalRoutes = goodCountList tree := by
    simp only [loadModules]
    rw [heq]
    simpa [initState] using hg
  have hmods : (loadModules tree).apiModules.length = goodCountList tree := by
    simp only [loadModules]
    rw [heq]
    simpa [initState] using hm
  have hlogs : (loadModules tree).logs.length = badCountList tree := by
    simp only [loadModules]
    rw [heq]
    simpa [initState] using hb
  subst hN hk
  refine ⟨by omega, by omega, by omega, by omega, by omega, ?_⟩
  intro s dir name msg hjs
  simp [processEntry, hjs, processJsFile]

/-- Claim C4 — witness: a directory with three candidates (one good, one
invalid, one throwing) and one non-candidate yields one route and two
diagnostics. -/
theorem discovery_isolation_witness :
    candCountList sampleTree = 3 ∧ badCountList sampleTree = 2
    ∧ (loadModules sampleTree).routes.length = 1
    ∧ (loadModules sampleTree).logs.length = 2 := by
  have h := discovery_isolation sampleTree 3 2 rfl rfl
  exact ⟨rfl, rfl, h.1, h.2.2.2.1⟩

/-- Claim C5 (amended): for a validated module the binder registers the
dispatch entry at `"/api" ++ basePath` where `basePath` is the part of
`meta.path` before the first `'?'` (the two halves recombine to the whole
path and the base contains no `'?'`), with the lowercased method; the
method defaults to `"get"` when absent — and, because the source uses the
falsy-based `meta.method || 'get'` rather than `?? 'get'`, also when the
method is present but the empty string. -/
theorem binder_derivation (s : ScanState) (dir name : String) (m : JsModule)
    (meta : Meta) (p : String) (hjs : extname name = ".js") (hmeta : m.meta = some meta)
    (hpath : meta.path = some p) (hfn : m.onStart = EntryPoint.invocable) :
    processEntry s dir (.file name (.ok m)) =
      { s with
        routes := s.routes ++
          [⟨lowerString (methodDefault meta.method), "/api" ++ beforeQuery p⟩],
        apiModules := s.apiModules ++
          [⟨meta.name, meta.description, meta.category,
            catalogPath ("/api" ++ beforeQuery p) p, meta.author, methodDefault meta.method⟩],
        totalRoutes := s.totalRoutes + 1 }
    ∧ (beforeQuery p ++ afterQuery p = p ∧ (beforeQuery p).data.all isNotQ = true)
    ∧ methodDefault none = "get"
    ∧ (∀ ms : String, ms ≠ "" → methodDefault (some ms) = ms) := by
  refine ⟨?_, ⟨beforeQuery_append_afterQuery p, beforeQuery_data_all p⟩, rfl, ?_⟩
  · simp [processEntry, hjs, processJsFile, hmeta, hfn, entryTruthy, entryIsFunction,
      bindModule, hpath]
  · intro ms hms
    simp [methodDefault, hms]

/-- Claim C5 — witness: the query-template module binds `get` at
`/api/search` while its catalog path keeps the suffix. -/
theorem binder_derivation_witness :
    extname "s.js" = ".js"
    ∧ (processEntry initState "api" (.file "s.js" (.ok searchModule))).routes
        = [⟨"get", "/api/search"⟩]
    ∧ (processEntry initState "api" (.file "s.js" (.ok searchModule))).apiModules.map
        CatalogEntry.path = ["/api/search?q=test"] := by
  have h := (binder_derivation initState "api" "s.js" searchModule
      ⟨some "Search", none, some "util", none, some "/search?q=test", none⟩
      "/search?q=test" rfl rfl rfl rfl).1
  refine ⟨rfl, ?_, ?_⟩
  · rw [h]
    rfl
  · rw [h]
    rfl

/-- Claim C5 — counterexample: with `method` present but equal to the
empty string, the bound method is `"get"`, not the lowercase of the
descriptor's method (`lowerString "" = ""`): the default also fires on a
present-but-falsy method. -/
theorem binder_method_empty_not_lowercase :
    (processEntry initState "api" (.file "p.js" (.ok emptyMethodModule))).routes
      = [⟨"get", "/api/ping"⟩]
    ∧ emptyMethodModule.meta
        = some ⟨some "Ping", none, some "util", none, some "/ping", some ""⟩
    ∧ lowerString "" = ""
    ∧ ("get" : String) ≠ lowerString "" :=
  ⟨rfl, rfl, rfl, by decide⟩

/-- Claim C6 — code-bug evidence: two modules claiming the same
`(get, /api/ping)` key are BOTH registered and BOTH recorded in the
catalog, with no diagnostic: the binder neither reports the conflict nor
rejects the later module, contrary to the required conflict policy. -/
theorem duplicate_route_not_reported :
    loadModules [.file "a.js" (.ok pingModule), .file "b.js" (.ok pingModule2)]
      = ⟨[⟨"get", "/api/ping"⟩, ⟨"get", "/api/ping"⟩],
         [⟨some "Ping", some "ping desc", some "util", "/api/ping", none, "get"⟩,
          ⟨some "Ping2", some "other", some "util", "/api/ping", none, "get"⟩],
         2, []⟩ := rfl

/-- Claim C7 (amended): the paths across the `/api/info` categories are a
permutation of the catalog-entry paths, and stripping each at its first
`'?'` (where the reattached query template sits) yields exactly the bound
routes' resolved paths: as sets, catalog paths with the query suffix
removed = bound route paths.  (The literal paths differ from the route
paths precisely on modules with a query template, which the catalog
displays reattached.) -/
theorem catalog_paths_match_routes (tree : List FsEntry) :
    List.Perm ((infoPaths (loadModules tree).apiModules).map beforeQuery)
      ((loadModules tree).routes.map Route.path)
    ∧ ∀ p : String, p ∈ (infoPaths (loadModules tree).apiModules).map beforeQuery
        ↔ p ∈ (loadModules tree).routes.map Route.path := by
  obtain ⟨nr, nm, nl, heq, hg, hm, hb, hp⟩ := processList_delta tree "api" initState
  have hmods : (loadModules tree).apiModules = nm := by
    simp only [loadModules]
    rw [heq]
    simp [initState]
  have hroutes : (loadModules tree).routes = nr := by
    simp only [loadModules]
    rw [heq]
    simp [initState]
  have hperm : List.Perm ((infoPaths (loadModules tree).apiModules).map beforeQuery)
      ((loadModules tree).routes.map Route.path) := by
    have h1 := (infoPaths_perm (loadModules tree).apiModules).map beforeQuery
    refine h1.trans ?_
    rw [List.map_map, hmods, hroutes]
    have h2 : nm.map (beforeQuery ∘ CatalogEntry.path) = nr.map Route.path := hp
    rw [h2]
  exact ⟨hperm, fun p => hperm.mem_iff⟩

/-- Claim C7 — counterexample to the claim as stated: a module with path
`/search?q=test` is dispatched at `/api/search` but catalogued as
`/api/search?q=test`, so the set of catalog paths differs from the set of
resolved route paths. -/
theorem catalog_path_keeps_query :
    infoPaths (loadModules [.file "s.js" (.ok searchModule)]).apiModules
      = ["/api/search?q=test"]
    ∧ (loadModules [.file "s.js" (.ok searchModule)]).routes.map Route.path
      = ["/api/search"]
    ∧ "/api/search?q=test"
        ∉ (loadModules [.file "s.js" (.ok searchModule)]).routes.map Route.path :=
  ⟨rfl, rfl, by decide⟩

/-- Claim C8 (amended): for any category value `c` other than the string
`"undefined"`, the catalog has at most one slot per key (its keys are
nodup), the slot for `c` holds exactly the items of the entries with
category `c` in discovery/bind order, and that slot is named `c`.  (At
`c = "undefined"` the slot is shared with unset-category entries and its
name is whatever the first sharer carried — see the counterexample.) -/
theorem category_grouping (mods : List CatalogEntry) (c : String)
    (hc : c ≠ "undefined") :
    ((buildCatalog mods).map Prod.fst).Nodup
    ∧ itemsAt (buildCatalog mods) c
        = (mods.filter (fun m => categoryKey m.category == c)).map toItem
    ∧ (∀ cat, findCat (buildCatalog mods) c = some cat → cat.name = some c) := by
  refine ⟨keys_nodup_buildFold mods [] (by simp), ?_,
    nameAt_buildFold c hc mods [] (fun cat h => by simp [findCat] at h)⟩
  have h := itemsAt_buildFold mods [] c
  simpa [buildCatalog, itemsAt, findCat] using h

/-- Claim C8 — witness: two modules with category `util` end up as the two
ordered items of the single `util` slot. -/
theorem category_grouping_witness :
    ("util" : String) ≠ "undefined"
    ∧ itemsAt (buildCatalog [utilEntryA, utilEntryB]) "util"
        = [toItem utilEntryA, toItem utilEntryB] := by
  refine ⟨by decide, ?_⟩
  rw [(category_grouping [utilEntryA, utilEntryB] "util" (by decide)).2.1]
  rfl

/-- Claim C8 — counterexample at the category value `"undefined"`: an
unset-category module and two modules whose category is the literal string
`"undefined"` all collide in the single slot keyed `"undefined"` (JS
stringifies the undefined key), and since the unset module created the
slot first, NO category named `"undefined"` exists: the only slot's name
is unset and it holds three items, not the two sharers alone. -/
theorem category_undefined_collision :
    (buildCatalog [noCatEntry, undefEntry1, undefEntry2]).map (fun kc => kc.2.name)
      = [none]
    ∧ (buildCatalog [noCatEntry, undefEntry1, undefEntry2]).length = 1
    ∧ itemsAt (buildCatalog [noCatEntry, undefEntry1, undefEntry2]) "undefined"
        = [toItem noCatEntry, toItem undefEntry1, toItem undefEntry2] :=
  ⟨rfl, rfl, rfl⟩

/-- Claim C9 (amended): building the catalog is a total function — an
unset category never causes a lookup failure — and every unset-category
entry lands in the single slot keyed by the string `"undefined"` (the JS
stringification of the undefined key); that slot's `name`, however, is
itself the undefined value, not a documented default label. -/
theorem unset_category_grouped (mods : List CatalogEntry) :
    ((buildCatalog mods).map Prod.fst).Nodup
    ∧ ∀ e ∈ mods, e.category = none →
        toItem e ∈ itemsAt (buildCatalog mods) "undefined" := by
  refine ⟨keys_nodup_buildFold mods [] (by simp), ?_⟩
  intro e he hcat
  have h := itemsAt_buildFold mods [] "undefined"
  rw [show (mods.foldl
      (fun cats m => insertItem (categoryKey m.category) m.category (toItem m) cats) [])
      = buildCatalog mods from rfl] at h
  rw [h]
  refine List.mem_append_right _ ?_
  exact List.mem_map_of_mem toItem
    (List.mem_filter.mpr ⟨he, by simp [categoryKey, hcat]⟩)

/-- Claim C9 — witness: an unset-category record is found in the
`"undefined"` slot. -/
theorem unset_category_grouped_witness :
    noCatEntry ∈ [noCatEntry] ∧ noCatEntry.category = none
    ∧ toItem noCatEntry ∈ itemsAt (buildCatalog [noCatEntry]) "undefined" :=
  ⟨List.mem_singleton.mpr rfl, rfl,
    (unset_category_grouped [noCatEntry]).2 noCatEntry (List.mem_singleton.mpr rfl) rfl⟩

/-- Claim C9 — counterexample to the claim as stated: the slot gathering
unset-category entries carries no documented default label: its `name`
field is the undefined value (dropped from the JSON output); only its
accidental dictionary key reads `"undefined"`. -/
theorem unset_category_no_label :
    buildCatalog [noCatEntry]
      = [("undefined", ⟨none, [⟨some "X", none, "/api/x", none, "get"⟩]⟩)]
    ∧ (buildCatalog [noCatEntry]).map (fun kc => kc.2.name) = [none] :=
  ⟨rfl, rfl⟩

/-- Claim C10: after the scan, `totalRoutes` equals the length of
`apiModules`; the equality is preserved by every single scan step (so it
holds at every point of the scan), and a successful bind appends exactly
one catalog entry while bumping the counter by exactly one. -/
theorem totalRoutes_matches_catalog (tree : List FsEntry) :
    (loadModules tree).totalRoutes = (loadModules tree).apiModules.length
    ∧ (∀ (s : ScanState) (dir : String) (e : FsEntry),
        s.totalRoutes = s.apiModules.length →
        (processEntry s dir e).totalRoutes = (processEntry s dir e).apiModules.length)
    ∧ (∀ (s : ScanState) (dir name : String) (m : JsModule) (meta : Meta) (p : String),
        extname name = ".js" → m.meta = some meta → meta.path = some p →
        m.onStart = EntryPoint.invocable →
        (processEntry s dir (.file name (.ok m))).apiModules.length
            = s.apiModules.length + 1
        ∧ (processEntry s dir (.file name (.ok m))).totalRoutes = s.totalRoutes + 1) := by
  refine ⟨?_, ?_, ?_⟩
  · obtain ⟨nr, nm, nl, heq, hg, hm, hb, hp⟩ := processList_delta tree "api" initState
    simp only [loadModules]
    rw [heq]
    simp [initState]
    omega
  · intro s dir e hs
    obtain ⟨nr, nm, nl, heq, hg, hm, hb, hp⟩ := processEntry_delta e s dir
    rw [heq]
    simp [hs]
    omega
  · intro s dir name m meta p hjs hmeta hpath hfn
    constructor <;>
      simp [processEntry, hjs, processJsFile, hmeta, hfn, entryTruthy, entryIsFunction,
        bindModule, hpath]

/-- Claim C10 — witness: on the sample directory the counter matches the
catalog length, the invariant is preserved on a concrete step, and a
concrete successful bind adds exactly one of each. -/
theorem totalRoutes_matches_catalog_witness :
    (loadModules sampleTree).totalRoutes = (loadModules sampleTree).apiModules.length
    ∧ initState.totalRoutes = initState.apiModules.length
    ∧ (processEntry initState "api" (.file "good.js" (.ok pingModule))).totalRoutes
        = (processEntry initState "api" (.file "good.js" (.ok pingModule))).apiModules.length := by
  have h := totalRoutes_matches_catalog sampleTree
  exact ⟨h.1, rfl, h.2.1 initState "api" (.file "good.js" (.ok pingModule)) rfl⟩

end Ace

